import Mathlib

/-!
# Regulayer Go SDK: a shallow embedding of `client.go`

The file embeds the four functions of the SDK client
(`NewClient`, `generateUUIDv4`, `hashJSON`, `RecordDecision`) together with
executable models of the Go standard-library functions they call
(`encoding/json.Marshal`, `crypto/sha256.Sum256`, `encoding/hex.EncodeToString`,
`fmt.Sprintf "%x"`, `net/http.Header.Set`), and then states and proves the
properties of the specification about them.

Modelling conventions.
* A Go `string` is a Lean `String`; its bytes are its UTF-8 encoding (`utf8`).
  Strings that are not valid UTF-8 are outside the model.
* A Go `byte` is a `Nat` below 256, a `[]byte` a `List Nat`.
* A Go `interface{}` value is a `GoValue`. `GoValue.nil` is the nil interface;
  a nil `map[string]interface{}` stored in an interface is the distinct value
  `GoValue.nilMap` (an interface holding a typed nil is not `== nil` in Go).
  Floating-point values and cyclic maps are outside the model.
* Everything the process obtains from outside (random bytes, the clock, URL
  validation, the HTTP exchange) is a field of `Runtime`.
-/

set_option maxRecDepth 100000

namespace Regulayer

/-! ## Bytes, hexadecimal, SHA-256 -/

/-- The UTF-8 bytes of a string: the Go conversion `[]byte(s)`. -/
def utf8 (s : String) : List Nat :=
  (s.data.flatMap String.utf8EncodeChar).map UInt8.toNat

/-- The table `hextable` of `encoding/hex` (also used by `fmt` for `%x`). -/
def hextable : List Char := "0123456789abcdef".data

/-- The hexadecimal digit of a nibble: `hextable[n]`. -/
def hexDigit (n : Nat) : Char := hextable.getD n '0'

/-- Model of `hex.EncodeToString`: two lowercase digits per byte,
`hextable[v>>4]` then `hextable[v&0x0f]`. -/
def hexEncode (bs : List Nat) : String :=
  String.mk (bs.flatMap (fun v => [hexDigit (v >>> 4), hexDigit (v &&& 0x0f)]))

/-- Model of `fmt.Sprintf("%x", b)` for a byte slice `b`: the same lowercase
hexadecimal rendering, two digits per byte and no separator. -/
def sprintfHex (bs : List Nat) : String := hexEncode bs

/-- Whether a character is one of `0-9a-f`. -/
def isLowerHex (c : Char) : Bool :=
  ('0'.toNat ≤ c.toNat && c.toNat ≤ '9'.toNat) || ('a'.toNat ≤ c.toNat && c.toNat ≤ 'f'.toNat)

/-- The value of a lowercase hexadecimal digit. -/
def hexValue (c : Char) : Option Nat :=
  if '0'.toNat ≤ c.toNat ∧ c.toNat ≤ '9'.toNat then some (c.toNat - '0'.toNat)
  else if 'a'.toNat ≤ c.toNat ∧ c.toNat ≤ 'f'.toNat then some (c.toNat - 'a'.toNat + 10)
  else none

/-- Inverse of `hexEncode` on character lists: pairs of digits back to bytes. -/
def hexDecode : List Char → Option (List Nat)
  | [] => some []
  | [_] => none
  | hi :: lo :: rest =>
    match hexValue hi, hexValue lo, hexDecode rest with
    | some h, some l, some bs => some ((16 * h + l) :: bs)
    | _, _, _ => none

/-- Round constants of SHA-256 (FIPS 180-4, section 4.2.2). -/
def sha256K : List Nat :=
  [0x428a2f98, 0x71374491, 0xb5c0fbcf, 0xe9b5dba5, 0x3956c25b, 0x59f111f1, 0x923f82a4, 0xab1c5ed5,
   0xd807aa98, 0x12835b01, 0x243185be, 0x550c7dc3, 0x72be5d74, 0x80deb1fe, 0x9bdc06a7, 0xc19bf174,
   0xe49b69c1, 0xefbe4786, 0x0fc19dc6, 0x240ca1cc, 0x2de92c6f, 0x4a7484aa, 0x5cb0a9dc, 0x76f988da,
   0x983e5152, 0xa831c66d, 0xb00327c8, 0xbf597fc7, 0xc6e00bf3, 0xd5a79147, 0x06ca6351, 0x14292967,
   0x27b70a85, 0x2e1b2138, 0x4d2c6dfc, 0x53380d13, 0x650a7354, 0x766a0abb, 0x81c2c92e, 0x92722c85,
   0xa2bfe8a1, 0xa81a664b, 0xc24b8b70, 0xc76c51a3, 0xd192e819, 0xd6990624, 0xf40e3585, 0x106aa070,
   0x19a4c116, 0x1e376c08, 0x2748774c, 0x34b0bcb5, 0x391c0cb3, 0x4ed8aa4a, 0x5b9cca4f, 0x682e6ff3,
   0x748f82ee, 0x78a5636f, 0x84c87814, 0x8cc70208, 0x90befffa, 0xa4506ceb, 0xbef9a3f7, 0xc67178f2]

/-- Truncation of a number to a 32-bit word. -/
def w32 (x : Nat) : Nat := x % 2 ^ 32

/-- Rotation of a 32-bit word to the right by `n` bits. -/
def rotr (x n : Nat) : Nat := w32 ((x >>> n) ||| (x <<< (32 - n)))

/-- The `width` low bytes of `x`, most significant first. -/
def bigEndian (width x : Nat) : List Nat :=
  (List.range width).map (fun i => (x >>> (8 * (width - 1 - i))) % 256)

/-- Padding of a message to a multiple of 64 bytes: the byte `0x80`, zero bytes, and
the length of the message in bits as eight bytes (FIPS 180-4, section 5.1.1). -/
def sha256Pad (msg : List Nat) : List Nat :=
  let l := msg.length
  msg ++ [0x80] ++ List.replicate ((119 - l % 64) % 64) 0 ++ bigEndian 8 (8 * l)

/-- The `i`-th big-endian 32-bit word of a block. -/
def wordAt (block : List Nat) (i : Nat) : Nat :=
  ((block.getD (4 * i) 0 * 256 + block.getD (4 * i + 1) 0) * 256 + block.getD (4 * i + 2) 0) * 256
    + block.getD (4 * i + 3) 0

/-- The message schedule of a block: its sixteen words extended to sixty-four
(FIPS 180-4, section 6.2.2, step 1). -/
def sha256Schedule (block : List Nat) : List Nat :=
  (List.range 48).foldl
    (fun w _ =>
      let n := w.length
      let x15 := w.getD (n - 15) 0
      let x2 := w.getD (n - 2) 0
      let s0 := rotr x15 7 ^^^ rotr x15 18 ^^^ (x15 >>> 3)
      let s1 := rotr x2 17 ^^^ rotr x2 19 ^^^ (x2 >>> 10)
      w ++ [w32 (w.getD (n - 16) 0 + s0 + w.getD (n - 7) 0 + s1)])
    ((List.range 16).map (wordAt block))

/-- The eight working variables of SHA-256. -/
structure Sha256State where
  a : Nat
  b : Nat
  c : Nat
  d : Nat
  e : Nat
  f : Nat
  g : Nat
  h : Nat

/-- One round of the compression function, for the round constant and the schedule
word in `kw` (FIPS 180-4, section 6.2.2, step 3). -/
def sha256Round (s : Sha256State) (kw : Nat × Nat) : Sha256State :=
  let S1 := rotr s.e 6 ^^^ rotr s.e 11 ^^^ rotr s.e 25
  let ch := (s.e &&& s.f) ^^^ ((s.e ^^^ 0xffffffff) &&& s.g)
  let t1 := w32 (s.h + S1 + ch + kw.1 + kw.2)
  let S0 := rotr s.a 2 ^^^ rotr s.a 13 ^^^ rotr s.a 22
  let maj := (s.a &&& s.b) ^^^ (s.a &&& s.c) ^^^ (s.b &&& s.c)
  let t2 := w32 (S0 + maj)
  ⟨w32 (t1 + t2), s.a, s.b, s.c, w32 (s.d + t1), s.e, s.f, s.g⟩

/-- The compression of one block into the hash state. -/
def sha256Block (s : Sha256State) (block : List Nat) : Sha256State :=
  let r := (sha256K.zip (sha256Schedule block)).foldl sha256Round s
  ⟨w32 (s.a + r.a), w32 (s.b + r.b), w32 (s.c + r.c), w32 (s.d + r.d),
   w32 (s.e + r.e), w32 (s.f + r.f), w32 (s.g + r.g), w32 (s.h + r.h)⟩

/-- Initial hash value of SHA-256 (FIPS 180-4, section 5.3.3). -/
def sha256Init : Sha256State :=
  ⟨0x6a09e667, 0xbb67ae85, 0x3c6ef372, 0xa54ff53a, 0x510e527f, 0x9b05688c, 0x1f83d9ab, 0x5be0cd19⟩

/-- Model of `sha256.Sum256`: the 32 bytes of the SHA-256 digest of a byte sequence. -/
def sha256 (msg : List Nat) : List Nat :=
  let p := sha256Pad msg
  let s := (List.range (p.length / 64)).foldl
    (fun s i => sha256Block s ((p.drop (64 * i)).take 64)) sha256Init
  [s.a, s.b, s.c, s.d, s.e, s.f, s.g, s.h].flatMap (bigEndian 4)

/-! ## Go values and `encoding/json` -/

/-- A Go value as it can sit in an `interface{}`: what the fields of a
`map[string]interface{}` hold. -/
inductive GoValue where
  /-- The nil interface value. -/
  | nil : GoValue
  | bool (b : Bool) : GoValue
  | int (n : Int) : GoValue
  | str (s : String) : GoValue
  /-- A non-nil `[]interface{}`. -/
  | slice (xs : List GoValue) : GoValue
  /-- A nil `map[string]interface{}` (typed nil: it is not the nil interface). -/
  | nilMap : GoValue
  /-- A non-nil `map[string]interface{}`, as its list of entries. -/
  | map (kvs : List (String × GoValue)) : GoValue
  /-- A value `encoding/json` cannot encode (a channel, a function, a complex number). -/
  | chan : GoValue

/-- A field of type `map[string]interface{}`: `none` is the nil map. -/
abbrev GoMap := Option (List (String × GoValue))

/-- Conversion of a `map[string]interface{}` to `interface{}`, as happens when it
is passed to `hashJSON` or stored in the payload map. A nil map becomes
`GoValue.nilMap`, never `GoValue.nil`. -/
def GoMap.toInterface : GoMap → GoValue
  | none => GoValue.nilMap
  | some kvs => GoValue.map kvs

/-- Bytewise lexicographic order, Go's `<=` on strings. -/
def bytesLE : List Nat → List Nat → Bool
  | [], _ => true
  | _ :: _, [] => false
  | a :: as, b :: bs => decide (a < b) || (a == b && bytesLE as bs)

/-- Order of two object members by key, as `encoding/json` sorts map keys. -/
def keyLE (a b : String × String) : Prop := bytesLE (utf8 a.1) (utf8 b.1) = true

instance keyLE.decidable : DecidableRel keyLE :=
  fun a b => inferInstanceAs (Decidable (bytesLE (utf8 a.1) (utf8 b.1) = true))

/-- The members of an object in the order `encoding/json` writes them. -/
def sortFields (fs : List (String × String)) : List (String × String) :=
  fs.insertionSort keyLE

/-- Escaping of one character inside a JSON string by `encoding/json`
(HTML escaping on, as in `json.Marshal`; Go 1.22 and later). -/
def jsonEscapeChar (c : Char) : List Char :=
  if c = '"' then ['\\', '"']
  else if c = '\\' then ['\\', '\\']
  else if c = '\n' then ['\\', 'n']
  else if c = '\r' then ['\\', 'r']
  else if c = '\t' then ['\\', 't']
  else if c.toNat = 8 then ['\\', 'b']
  else if c.toNat = 12 then ['\\', 'f']
  else if c.toNat < 32 ∨ c = '<' ∨ c = '>' ∨ c = '&' then
    ['\\', 'u', '0', '0', hexDigit (c.toNat >>> 4), hexDigit (c.toNat &&& 0x0f)]
  else if c.toNat = 0x2028 then ['\\', 'u', '2', '0', '2', '8']
  else if c.toNat = 0x2029 then ['\\', 'u', '2', '0', '2', '9']
  else [c]

/-- A JSON string literal as `encoding/json` writes it. -/
def jsonString (s : String) : String :=
  String.mk ('"' :: s.data.flatMap jsonEscapeChar ++ ['"'])

/-- One object member `"key":value`. -/
def jsonMember (f : String × String) : String := jsonString f.1 ++ ":" ++ f.2

mutual
/-- Model of `json.Marshal` on a `GoValue`; `none` is a marshalling error
(`json.UnsupportedTypeError`). Object members are written in sorted key order: the
values of the entries are encoded first and the encoded members then sorted by key,
which gives the bytes `encoding/json` produces by sorting the entries and encoding
them in that order, and an error in exactly the same cases. -/
def marshal : GoValue → Option String
  | .nil => some "null"
  | .bool b => some (if b then "true" else "false")
  | .int n => some (toString n)
  | .str s => some (jsonString s)
  | .slice xs =>
    match marshalElems xs with
    | none => none
    | some es => some ("[" ++ ",".intercalate es ++ "]")
  | .nilMap => some "null"
  | .map kvs =>
    match marshalFields kvs with
    | none => none
    | some fs => some ("\x7b" ++ ",".intercalate ((sortFields fs).map jsonMember) ++ "\x7d")
  | .chan => none
/-- The encodings of the elements of a slice. -/
def marshalElems : List GoValue → Option (List String)
  | [] => some []
  | x :: xs =>
    match marshal x, marshalElems xs with
    | some e, some es => some (e :: es)
    | _, _ => none
/-- The entries of a map with their values encoded. -/
def marshalFields : List (String × GoValue) → Option (List (String × String))
  | [] => some []
  | (k, v) :: rest =>
    match marshal v, marshalFields rest with
    | some e, some es => some ((k, e) :: es)
    | _, _ => none
end

mutual
/-- Whether a value contains, at any depth, something `encoding/json` cannot encode. -/
def GoValue.hasUnsupported : GoValue → Bool
  | .slice xs => anyUnsupported xs
  | .map kvs => anyFieldUnsupported kvs
  | .chan => true
  | _ => false
/-- Whether some element of a slice contains an unencodable value. -/
def anyUnsupported : List GoValue → Bool
  | [] => false
  | x :: xs => x.hasUnsupported || anyUnsupported xs
/-- Whether some entry of a map contains an unencodable value. -/
def anyFieldUnsupported : List (String × GoValue) → Bool
  | [] => false
  | (_, v) :: rest => v.hasUnsupported || anyFieldUnsupported rest
end

/-- Lookup of a key in a map given by its entries. -/
def lookupKey (k : String) : List (String × GoValue) → Option GoValue
  | [] => none
  | (k', v) :: rest => if k' = k then some v else lookupKey k rest

/-! ## Semantic equality of Go values -/

mutual
/-- Model of `reflect.DeepEqual` on the values of the model: scalars are equal when
they are the same, slices when they are equal element by element, and two non-nil maps
when they have the same length and every key of the first is present in the second
with a deeply equal value; a nil map is equal to a nil map only. Unencodable values
carry no identity in the model and are taken as equal to each other, which only
enlarges the relation. -/
def GoValue.deepEqual : GoValue → GoValue → Bool
  | .nil, w => match w with
    | .nil => true
    | _ => false
  | .bool a, w => match w with
    | .bool b => a == b
    | _ => false
  | .int a, w => match w with
    | .int b => a == b
    | _ => false
  | .str a, w => match w with
    | .str b => a == b
    | _ => false
  | .slice xs, w => match w with
    | .slice ys => deepEqualElems xs ys
    | _ => false
  | .nilMap, w => match w with
    | .nilMap => true
    | _ => false
  | .map kvs, w => match w with
    | .map lvs => kvs.length == lvs.length && deepEqualEntries kvs lvs
    | _ => false
  | .chan, w => match w with
    | .chan => true
    | _ => false
/-- Deep equality of two slices, element by element. -/
def deepEqualElems : List GoValue → List GoValue → Bool
  | [], ys => ys.isEmpty
  | x :: xs, ys => match ys with
    | [] => false
    | y :: ys' => x.deepEqual y && deepEqualElems xs ys'
/-- Whether every entry of the first list has, under its key, a deeply equal value in
the map given by the second list. -/
def deepEqualEntries : List (String × GoValue) → List (String × GoValue) → Bool
  | [], _ => true
  | (k, v) :: rest, lvs =>
    (match lookupKey k lvs with
     | some w => v.deepEqual w
     | none => false) && deepEqualEntries rest lvs
end

/-- Whether the keys of the entries are pairwise distinct as byte strings. -/
def distinctKeys (kvs : List (String × GoValue)) : Bool :=
  decide ((kvs.map (fun kv => utf8 kv.1)).Nodup)

mutual
/-- Whether a value can exist in Go: every map in it, at any depth, has pairwise
distinct keys. -/
def GoValue.wellFormed : GoValue → Bool
  | .slice xs => wellFormedElems xs
  | .map kvs => distinctKeys kvs && wellFormedEntries kvs
  | _ => true
/-- Whether every element of a slice is well formed. -/
def wellFormedElems : List GoValue → Bool
  | [] => true
  | x :: xs => x.wellFormed && wellFormedElems xs
/-- Whether the value of every entry is well formed. -/
def wellFormedEntries : List (String × GoValue) → Bool
  | [] => true
  | (_, v) :: rest => v.wellFormed && wellFormedEntries rest
end

/-- The entries of `kvs` with each value replaced by the one `lvs` holds under the
same key: the entries of `lvs` in the order of the keys of `kvs`. -/
def realign (kvs lvs : List (String × GoValue)) : List (String × GoValue) :=
  kvs.map (fun kv => (kv.1, (lookupKey kv.1 lvs).getD GoValue.nil))

/-! ## `net/http` pieces -/

/-- Whether a byte may occur in an HTTP header name (an RFC 7230 token character),
`validHeaderFieldByte` of `net/textproto`. -/
def validHeaderFieldByte (c : Char) : Bool :=
  c.isAlphanum || "!#$%&'*+-.^_`|~".data.contains c

/-- The canonicalisation loop of `net/textproto`: upper case for the first letter
and for a letter after a hyphen, lower case elsewhere. -/
def canonicalLoop : Bool → List Char → List Char
  | _, [] => []
  | upper, c :: cs =>
    let c' := if upper && c.isLower then c.toUpper
              else if !upper && c.isUpper then c.toLower else c
    c' :: canonicalLoop (c' == '-') cs

/-- Model of `textproto.CanonicalMIMEHeaderKey`: a name made of token characters
is canonicalised, any other name is returned unchanged. -/
def canonicalMIMEHeaderKey (s : String) : String :=
  if s.data.all validHeaderFieldByte then String.mk (canonicalLoop true s.data) else s

/-- Model of `http.Header`: canonical header name to its list of values. -/
abbrev Header := List (String × List String)

/-- Model of `Header.Set`: the values of the canonical key are replaced by the single value. -/
def Header.Set (h : Header) (key value : String) : Header :=
  (canonicalMIMEHeaderKey key, [value]) ::
    h.filter (fun kv => kv.1 != canonicalMIMEHeaderKey key)

/-- Model of `Header.Get`: the first value of the canonical key, or `""`. -/
def Header.Get (h : Header) (key : String) : String :=
  match h.lookup (canonicalMIMEHeaderKey key) with
  | some (v :: _) => v
  | _ => ""

/-- The part of `http.Request` that `RecordDecision` determines. -/
structure Request where
  Method : String
  URL : String
  Header : Header
  Body : String
deriving DecidableEq

/-- The part of `http.Response` that `RecordDecision` reads. -/
structure Response where
  StatusCode : Int
deriving DecidableEq

/-- The part of `http.Client` that `NewClient` sets; `Timeout` is a `time.Duration`
in nanoseconds. -/
structure HTTPClient where
  Timeout : Int
deriving DecidableEq

/-- The constant `time.Second`, in nanoseconds. -/
def Second : Int := 1000000000

/-- A Go `error` value, by where it comes from. -/
inductive GoError where
  /-- An error made by `errors.New` or `fmt.Errorf`, with its message. -/
  | message (msg : String) : GoError
  /-- The error of `json.Marshal`. -/
  | marshal : GoError
  /-- The error of `http.NewRequest` on a URL that does not parse. -/
  | badURL (url : String) : GoError
  /-- An error returned by `http.Client.Do`. -/
  | transport (msg : String) : GoError
deriving DecidableEq

/-! ## The SDK: data model -/

/-- Client is the Regulayer SDK client. -/
structure Client where
  APIKey : String
  Endpoint : String
  HTTPClient : HTTPClient
deriving DecidableEq

/-- Config for initializing the client. -/
structure Config where
  APIKey : String
  Endpoint : String
  Demo : Bool
deriving DecidableEq

/-- Decision payload. -/
structure Decision where
  DecisionID : String
  System : String
  RiskLevel : String
  ModelName : String
  Input : GoMap
  Output : GoMap
  Metadata : GoMap

/-- What the process obtains from outside during one call. -/
structure Runtime where
  /-- The bytes `crypto/rand` delivers to `rand.Read`. -/
  randBytes : List Nat
  /-- The value of `time.Now().UTC().Format(time.RFC3339)`. -/
  now : String
  /-- Whether `http.NewRequest` accepts a URL (`net/url.Parse` succeeds on it). -/
  parseURL : String → Bool
  /-- The exchange `HTTPClient.Do(req)`: a response or an error. -/
  Do : HTTPClient → Request → Except GoError Response

/-- What one call of `RecordDecision` does: the payload map it built, the requests
it handed to `HTTPClient.Do`, in order, and the error it returned (`none` is nil). -/
structure Outcome where
  payload : List (String × GoValue)
  sent : List Request
  err : Option GoError

/-! ## The SDK: operations -/

/-- NewClient creates a new Regulayer client. The pair is Go's `(*Client, error)`:
`none` in the first component is the nil pointer, `none` in the second the nil error. -/
def NewClient (config : Config) : Option Client × Option GoError :=
  if config.APIKey = "" then
    (none, some (GoError.message "APIKey is required"))
  else
    let endpoint := config.Endpoint
    let endpoint := if endpoint = "" then "https://api.regulayer.tech" else endpoint
    (some { APIKey := config.APIKey,
            Endpoint := endpoint,
            HTTPClient := { Timeout := 10 * Second } }, none)

/-- Model of `rand.Read(b)`: the delivered bytes overwrite `b` from the start;
positions the source did not reach keep their value. -/
def randRead (src b : List Nat) : List Nat :=
  (List.range b.length).map (fun i => (src.get? i).getD (b.getD i 0))

/-- The function generateUUIDv4 creates a secure random UUIDv4; `src` is what the
random source delivers. -/
def generateUUIDv4 (src : List Nat) : String :=
  let b := List.replicate 16 0
  let b := randRead src b
  let b := b.set 6 ((b.getD 6 0 &&& 0x0f) ||| 0x40)
  let b := b.set 8 ((b.getD 8 0 &&& 0x3f) ||| 0x80)
  sprintfHex (b.take 4) ++ "-" ++ sprintfHex ((b.drop 4).take 2) ++ "-" ++
    sprintfHex ((b.drop 6).take 2) ++ "-" ++ sprintfHex ((b.drop 8).take 2) ++ "-" ++
    sprintfHex (b.drop 10)

/-- The function hashJSON computes the SHA-256 hash of a JSON encoded map. -/
def hashJSON (data : GoValue) : String :=
  match data with
  | GoValue.nil => ""
  | _ =>
    match marshal data with
    | none => ""
    | some bytes => hexEncode (sha256 (utf8 bytes))

/-- RecordDecision sends a decision to the Regulayer gateway. -/
def RecordDecision (rt : Runtime) (c : Client) (d : Decision) : Outcome :=
  let decisionID := d.DecisionID
  let decisionID := if decisionID = "" then generateUUIDv4 rt.randBytes else decisionID
  let riskLevel := d.RiskLevel
  let riskLevel := if riskLevel = "" then "standard" else riskLevel
  let modelName := d.ModelName
  let modelName := if modelName = "" then "default" else modelName
  let now := rt.now
  let payload : List (String × GoValue) := [
    ("event_version", GoValue.str "2.0"),
    ("event_state", GoValue.str "completed"),
    ("decision_id", GoValue.str decisionID),
    ("system_name", GoValue.str d.System),
    ("risk_level", GoValue.str riskLevel),
    ("model_name", GoValue.str modelName),
    ("input_hash", GoValue.str (hashJSON d.Input.toInterface)),
    ("output_hash", GoValue.str (hashJSON d.Output.toInterface)),
    ("input", d.Input.toInterface),
    ("output", d.Output.toInterface),
    ("metadata", d.Metadata.toInterface),
    ("start_timestamp", GoValue.str now),
    ("end_timestamp", GoValue.str now)]
  match marshal (GoValue.map payload) with
  | none => { payload := payload, sent := [], err := some GoError.marshal }
  | some body =>
    if rt.parseURL (c.Endpoint ++ "/v1/decisions") = false then
      { payload := payload, sent := [], err := some (GoError.badURL (c.Endpoint ++ "/v1/decisions")) }
    else
      let req : Request :=
        { Method := "POST", URL := c.Endpoint ++ "/v1/decisions", Header := [], Body := body }
      let req := { req with Header := req.Header.Set "Authorization" ("Bearer " ++ c.APIKey) }
      let req := { req with Header := req.Header.Set "X-Regulayer-Api-Key" c.APIKey }
      let req := { req with Header := req.Header.Set "Content-Type" "application/json" }
      let req := { req with Header := req.Header.Set "X-Request-ID" decisionID }
      match rt.Do c.HTTPClient req with
      | Except.error err => { payload := payload, sent := [req], err := some err }
      | Except.ok resp =>
        if resp.StatusCode ≥ 400 then
          { payload := payload, sent := [req],
            err := some (GoError.message ("API error: status code " ++ toString resp.StatusCode)) }
        else
          { payload := payload, sent := [req], err := none }

/-! ## Patterns used by the statements -/

/-- The pattern
`[0-9a-f]{8}-[0-9a-f]{4}-4[0-9a-f]{3}-[89ab][0-9a-f]{3}-[0-9a-f]{12}`,
one character class per position. -/
def uuidV4Pattern : List (Char → Bool) :=
  List.replicate 8 isLowerHex ++ [fun c => c == '-'] ++
  List.replicate 4 isLowerHex ++ [fun c => c == '-'] ++
  [fun c => c == '4'] ++ List.replicate 3 isLowerHex ++ [fun c => c == '-'] ++
  [fun c => "89ab".data.contains c] ++ List.replicate 3 isLowerHex ++ [fun c => c == '-'] ++
  List.replicate 12 isLowerHex

/-- Whether a string has exactly one character per class of the pattern, each in its class. -/
def matchesPattern (p : List (Char → Bool)) (s : String) : Bool :=
  s.data.length == p.length && (List.zipWith (fun f c => f c) p s.data).all id

/-- The bytes a textual UUID denotes: its hexadecimal digits with the hyphens removed. -/
def uuidBytes (s : String) : Option (List Nat) :=
  hexDecode (s.data.filter (fun c => c != '-'))

/-- The string value stored under a key of a payload, if there is one. -/
def stringField (k : String) (payload : List (String × GoValue)) : Option String :=
  match lookupKey k payload with
  | some (GoValue.str s) => some s
  | _ => none

/-- The request `RecordDecision` hands to the transport once the payload is encoded
and the URL accepted: the four headers are stored under their canonical names. -/
def builtRequest (c : Client) (decisionID body : String) : Request :=
  { Method := "POST", URL := c.Endpoint ++ "/v1/decisions",
    Header := [("X-Request-Id", [decisionID]), ("Content-Type", ["application/json"]),
               ("X-Regulayer-Api-Key", [c.APIKey]), ("Authorization", ["Bearer " ++ c.APIKey])],
    Body := body }

/-- The error `RecordDecision` returns after the exchange. -/
def errorOfExchange (r : Except GoError Response) : Option GoError :=
  match r with
  | Except.error err => some err
  | Except.ok resp =>
    if resp.StatusCode ≥ 400 then
      some (GoError.message ("API error: status code " ++ toString resp.StatusCode))
    else none

/-! ## Concrete inputs -/

/-- A runtime whose endpoint answers every request with the given status code. -/
def sampleRuntime (status : Int) : Runtime :=
  { randBytes := [0x00, 0x11, 0x22, 0x33, 0x44, 0x55, 0x66, 0x77,
                  0x88, 0x99, 0xaa, 0xbb, 0xcc, 0xdd, 0xee, 0xff],
    now := "2024-01-15T10:30:00Z",
    parseURL := fun _ => true,
    Do := fun _ _ => Except.ok { StatusCode := status } }

/-- A client as `NewClient` makes it for the key `"k"` and the default endpoint. -/
def sampleClient : Client :=
  { APIKey := "k", Endpoint := "https://api.regulayer.tech",
    HTTPClient := { Timeout := 10 * Second } }

/-- A decision with input `{"a":1}`, output `{"b":2}`, no metadata and nothing else set. -/
def sampleDecision : Decision :=
  { DecisionID := "", System := "", RiskLevel := "", ModelName := "",
    Input := some [("a", GoValue.int 1)], Output := some [("b", GoValue.int 2)],
    Metadata := none }

/-- A decision none of whose maps is set. -/
def emptyDecision : Decision :=
  { DecisionID := "d-1", System := "scoring", RiskLevel := "high", ModelName := "m",
    Input := none, Output := none, Metadata := none }

/-- A decision whose input holds a channel. -/
def channelDecision : Decision :=
  { DecisionID := "d-2", System := "scoring", RiskLevel := "", ModelName := "",
    Input := some [("ch", GoValue.chan)], Output := none, Metadata := none }

/-- The map `{"m":{"x":1,"y":2},"n":[true]}` listed outermost `n`, `m` and inside
`m` as `y`, `x`. -/
def nestedEntries : List (String × GoValue) :=
  [("n", GoValue.slice [GoValue.bool true]),
   ("m", GoValue.map [("y", GoValue.int 2), ("x", GoValue.int 1)])]

/-- The same map listed outermost `m`, `n` and inside `m` as `x`, `y`. -/
def nestedEntriesSorted : List (String × GoValue) :=
  [("m", GoValue.map [("x", GoValue.int 1), ("y", GoValue.int 2)]),
   ("n", GoValue.slice [GoValue.bool true])]

/-- A decision whose input is the first listing of the nested map. -/
def reorderedDecision : Decision :=
  { DecisionID := "", System := "", RiskLevel := "", ModelName := "",
    Input := some nestedEntries, Output := some nestedEntries, Metadata := none }

/-- The same decision with the second listing of the nested map. -/
def orderedDecision : Decision :=
  { DecisionID := "", System := "", RiskLevel := "", ModelName := "",
    Input := some nestedEntriesSorted, Output := some nestedEntriesSorted, Metadata := none }

/-! ## Hexadecimal and digest lemmas -/

theorem hexDigit_isLowerHex : ∀ n, n < 16 → isLowerHex (hexDigit n) = true := by
  decide

theorem hexValue_hexDigit : ∀ n, n < 16 → hexValue (hexDigit n) = some n := by
  decide

theorem byte_nibbles : ∀ v, v < 256 → v >>> 4 < 16 ∧ v &&& 0x0f < 16 ∧
    16 * (v >>> 4) + (v &&& 0x0f) = v := by
  decide

theorem hexEncode_length (bs : List Nat) : (hexEncode bs).length = 2 * bs.length := by
  show (bs.flatMap _).length = _
  induction bs with
  | nil => rfl
  | cons b bs ih => simp only [List.flatMap_cons, List.length_append, ih, List.length_cons,
      List.length_nil]; omega

theorem hexEncode_isLowerHex (bs : List Nat) (h : ∀ v ∈ bs, v < 256) :
    ∀ ch ∈ (hexEncode bs).data, isLowerHex ch = true := by
  intro ch hch
  simp only [hexEncode, List.mem_flatMap, List.mem_cons, List.mem_singleton,
    List.not_mem_nil, or_false] at hch
  obtain ⟨v, hv, rfl | rfl⟩ := hch
  · exact hexDigit_isLowerHex _ (byte_nibbles v (h v hv)).1
  · exact hexDigit_isLowerHex _ (byte_nibbles v (h v hv)).2.1

theorem hexEncode_cons (b : Nat) (bs : List Nat) :
    (hexEncode (b :: bs)).data =
      hexDigit (b >>> 4) :: hexDigit (b &&& 0x0f) :: (hexEncode bs).data := by
  simp [hexEncode]

theorem hexDecode_hexEncode (bs : List Nat) (h : ∀ v ∈ bs, v < 256) :
    hexDecode (hexEncode bs).data = some bs := by
  induction bs with
  | nil => rfl
  | cons b bs ih =>
    have hb := byte_nibbles b (h b (List.mem_cons_self _ _))
    have ih' := ih (fun v hv => h v (List.mem_cons_of_mem _ hv))
    rw [hexEncode_cons, hexDecode, hexValue_hexDigit _ hb.1, hexValue_hexDigit _ hb.2.1, ih']
    simp only [hb.2.2]

theorem bigEndian_length (w x : Nat) : (bigEndian w x).length = w := by
  simp [bigEndian]

theorem bigEndian_lt (w x : Nat) : ∀ v ∈ bigEndian w x, v < 256 := by
  intro v hv
  simp only [bigEndian, List.mem_map] at hv
  obtain ⟨i, _, rfl⟩ := hv
  exact Nat.mod_lt _ (by decide)

theorem sha256_length (msg : List Nat) : (sha256 msg).length = 32 := by
  simp [sha256, bigEndian_length]

theorem sha256_lt (msg : List Nat) : ∀ v ∈ sha256 msg, v < 256 := by
  intro v hv
  simp only [sha256, List.mem_flatMap] at hv
  obtain ⟨x, _, hx⟩ := hv
  exact bigEndian_lt 4 x v hx

theorem sha256_abc :
    hexEncode (sha256 (utf8 "abc")) =
      "ba7816bf8f01cfea414140de5dae2223b00361a396177a9cb410ff61f20015ad" := by
  decide

theorem sha256_two_blocks :
    hexEncode (sha256 (utf8 "abcdbcdecdefdefgefghfghighijhijkijkljklmklmnlmnomnopnopq")) =
      "248d6a61d20638b8e5c026930c3e6039a33ce45964ff2167f6ecedd419db06c1" := by
  decide


/-! ## `encoding/json`: when marshalling fails -/

mutual
theorem marshal_eq_none_iff : ∀ v : GoValue, marshal v = none ↔ v.hasUnsupported = true
  | .nil => by simp [marshal, GoValue.hasUnsupported]
  | .bool _ => by simp [marshal, GoValue.hasUnsupported]
  | .int _ => by simp [marshal, GoValue.hasUnsupported]
  | .str _ => by simp [marshal, GoValue.hasUnsupported]
  | .nilMap => by simp [marshal, GoValue.hasUnsupported]
  | .chan => by simp [marshal, GoValue.hasUnsupported]
  | .slice xs => by
    have ih := marshalElems_eq_none_iff xs
    rw [marshal, GoValue.hasUnsupported, ← ih]
    cases marshalElems xs <;> simp
  | .map kvs => by
    have ih := marshalFields_eq_none_iff kvs
    rw [marshal, GoValue.hasUnsupported, ← ih]
    cases marshalFields kvs <;> simp
theorem marshalElems_eq_none_iff :
    ∀ xs : List GoValue, marshalElems xs = none ↔ anyUnsupported xs = true
  | [] => by simp [marshalElems, anyUnsupported]
  | x :: xs => by
    have ih1 := marshal_eq_none_iff x
    have ih2 := marshalElems_eq_none_iff xs
    rw [marshalElems, anyUnsupported, Bool.or_eq_true, ← ih1, ← ih2]
    cases marshal x <;> cases marshalElems xs <;> simp
theorem marshalFields_eq_none_iff :
    ∀ kvs : List (String × GoValue), marshalFields kvs = none ↔ anyFieldUnsupported kvs = true
  | [] => by simp [marshalFields, anyFieldUnsupported]
  | (k, v) :: rest => by
    have ih1 := marshal_eq_none_iff v
    have ih2 := marshalFields_eq_none_iff rest
    rw [marshalFields, anyFieldUnsupported, Bool.or_eq_true, ← ih1, ← ih2]
    cases marshal v <;> cases marshalFields rest <;> simp
end

theorem marshalFields_none_of_mem (kvs : List (String × GoValue)) (k : String) (v : GoValue)
    (hmem : (k, v) ∈ kvs) (hv : marshal v = none) : marshalFields kvs = none := by
  induction kvs with
  | nil => cases hmem
  | cons kv rest ih =>
    obtain ⟨k', v'⟩ := kv
    rcases List.mem_cons.1 hmem with h | h
    · cases h
      rw [marshalFields, hv]
    · rw [marshalFields, ih h]
      cases marshal v' <;> rfl

theorem marshal_map_none_of_mem (kvs : List (String × GoValue)) (k : String) (v : GoValue)
    (hmem : (k, v) ∈ kvs) (hv : marshal v = none) : marshal (GoValue.map kvs) = none := by
  rw [marshal, marshalFields_none_of_mem kvs k v hmem hv]


/-! ## `encoding/json`: sorted keys make the encoding independent of entry order -/

theorem bytesLE_total : ∀ a b : List Nat, bytesLE a b = true ∨ bytesLE b a = true
  | [], _ => Or.inl (by simp [bytesLE])
  | _ :: _, [] => Or.inr (by simp [bytesLE])
  | a :: as, b :: bs => by
    have ih := bytesLE_total as bs
    simp only [bytesLE, Bool.or_eq_true, decide_eq_true_eq, Bool.and_eq_true, beq_iff_eq]
    rcases Nat.lt_trichotomy a b with h | h | h
    · exact Or.inl (Or.inl h)
    · rcases ih with h' | h'
      · exact Or.inl (Or.inr ⟨h, h'⟩)
      · exact Or.inr (Or.inr ⟨h.symm, h'⟩)
    · exact Or.inr (Or.inl h)

theorem bytesLE_trans : ∀ a b c : List Nat,
    bytesLE a b = true → bytesLE b c = true → bytesLE a c = true
  | [], _, _ => fun _ _ => by simp [bytesLE]
  | _ :: _, [], _ => fun h _ => by simp [bytesLE] at h
  | _ :: _, _ :: _, [] => fun _ h => by simp [bytesLE] at h
  | a :: as, b :: bs, c :: cs => by
    have ih := bytesLE_trans as bs cs
    simp only [bytesLE, Bool.or_eq_true, decide_eq_true_eq, Bool.and_eq_true, beq_iff_eq]
    rintro (h1 | ⟨h1, h1'⟩) (h2 | ⟨h2, h2'⟩)
    · exact Or.inl (by omega)
    · exact Or.inl (by omega)
    · exact Or.inl (by omega)
    · exact Or.inr ⟨by omega, ih h1' h2'⟩

theorem bytesLE_antisymm : ∀ a b : List Nat,
    bytesLE a b = true → bytesLE b a = true → a = b
  | [], [] => fun _ _ => rfl
  | [], _ :: _ => fun _ h => by simp [bytesLE] at h
  | _ :: _, [] => fun h _ => by simp [bytesLE] at h
  | a :: as, b :: bs => by
    have ih := bytesLE_antisymm as bs
    simp only [bytesLE, Bool.or_eq_true, decide_eq_true_eq, Bool.and_eq_true, beq_iff_eq]
    rintro (h1 | ⟨h1, h1'⟩) (h2 | ⟨h2, h2'⟩)
    · omega
    · omega
    · omega
    · rw [h1, ih h1' h2']

theorem sortFields_perm (fs : List (String × String)) : (sortFields fs).Perm fs :=
  List.perm_insertionSort keyLE fs

theorem sortFields_sorted (fs : List (String × String)) : (sortFields fs).Sorted keyLE := by
  haveI : IsTotal (String × String) keyLE := ⟨fun a b => bytesLE_total _ _⟩
  haveI : IsTrans (String × String) keyLE := ⟨fun a b c => bytesLE_trans _ _ _⟩
  exact List.sorted_insertionSort keyLE fs

/-- Two lists of members with the same members and pairwise distinct keys are
written in the same order. -/
theorem sortFields_eq_of_perm (fs gs : List (String × String)) (hperm : fs.Perm gs)
    (hkeys : (fs.map (fun f => utf8 f.1)).Nodup) : sortFields fs = sortFields gs := by
  let strict : String × String → String × String → Prop :=
    fun a b => keyLE a b ∧ utf8 a.1 ≠ utf8 b.1
  haveI : IsAntisymm (String × String) strict :=
    ⟨fun a b hab hba => absurd (bytesLE_antisymm _ _ hab.1 hba.1) hab.2⟩
  have hp : (sortFields fs).Perm (sortFields gs) :=
    (sortFields_perm fs).trans (hperm.trans (sortFields_perm gs).symm)
  have key : ∀ hs : List (String × String), hs.Perm fs → (sortFields hs).Sorted strict := by
    intro hs hhs
    have hnd : ((sortFields hs).map (fun f => utf8 f.1)).Nodup :=
      (((sortFields_perm hs).trans hhs).map _).nodup_iff.2 hkeys
    have hnd' : (sortFields hs).Pairwise (fun a b => utf8 a.1 ≠ utf8 b.1) :=
      List.pairwise_map.1 hnd
    exact List.Pairwise.and (sortFields_sorted hs) hnd'
  exact List.eq_of_perm_of_sorted hp (key fs (List.Perm.refl _)) (key gs hperm.symm)

theorem marshalFields_cons_some (k : String) (v : GoValue) (rest : List (String × GoValue))
    (fs : List (String × String)) (h : marshalFields ((k, v) :: rest) = some fs) :
    ∃ e es, marshal v = some e ∧ marshalFields rest = some es ∧ fs = (k, e) :: es := by
  rw [marshalFields] at h
  cases hv : marshal v with
  | none => simp [hv] at h
  | some e =>
    cases hr : marshalFields rest with
    | none => simp [hv, hr] at h
    | some es =>
      simp only [hv, hr, Option.some.injEq] at h
      exact ⟨e, es, rfl, rfl, h.symm⟩

theorem marshalFields_cons_eq (k : String) (v : GoValue) (rest : List (String × GoValue))
    (e : String) (es : List (String × String)) (hv : marshal v = some e)
    (hr : marshalFields rest = some es) :
    marshalFields ((k, v) :: rest) = some ((k, e) :: es) := by
  rw [marshalFields, hv, hr]

/-- Encoding the values of the entries commutes with reordering the entries. -/
theorem marshalFields_perm (kvs lvs : List (String × GoValue)) (hperm : kvs.Perm lvs) :
    ∀ fs, marshalFields kvs = some fs → ∃ gs, marshalFields lvs = some gs ∧ fs.Perm gs := by
  induction hperm with
  | nil => intro fs h; exact ⟨fs, h, List.Perm.refl _⟩
  | cons x _ ih =>
    obtain ⟨k, v⟩ := x
    intro fs h
    obtain ⟨e, es, hv, hr, rfl⟩ := marshalFields_cons_some k v _ fs h
    obtain ⟨gs, hg, hp⟩ := ih es hr
    exact ⟨(k, e) :: gs, marshalFields_cons_eq k v _ e gs hv hg, hp.cons _⟩
  | swap x y l =>
    obtain ⟨k, v⟩ := x
    obtain ⟨k', v'⟩ := y
    intro fs h
    obtain ⟨e', es', hv', hr', rfl⟩ := marshalFields_cons_some k' v' _ fs h
    obtain ⟨e, es, hv, hr, rfl⟩ := marshalFields_cons_some k v _ es' hr'
    exact ⟨(k, e) :: (k', e') :: es,
      marshalFields_cons_eq k v _ e _ hv (marshalFields_cons_eq k' v' _ e' es hv' hr),
      List.Perm.swap _ _ _⟩
  | trans _ _ ih1 ih2 =>
    intro fs h
    obtain ⟨gs, hg, hp⟩ := ih1 fs h
    obtain ⟨hs, hh, hp'⟩ := ih2 gs hg
    exact ⟨hs, hh, hp.trans hp'⟩

theorem marshalFields_keys : ∀ (kvs : List (String × GoValue)) (fs : List (String × String)),
    marshalFields kvs = some fs → fs.map (fun f => utf8 f.1) = kvs.map (fun kv => utf8 kv.1)
  | [], fs => fun h => by
    rw [marshalFields] at h
    cases h
    rfl
  | (k, v) :: rest, fs => fun h => by
    obtain ⟨e, es, _, hr, rfl⟩ := marshalFields_cons_some k v rest fs h
    simp only [List.map_cons, marshalFields_keys rest es hr]

/-- The encoding of a map does not depend on the order of its entries. -/
theorem marshal_map_perm (kvs lvs : List (String × GoValue)) (hperm : kvs.Perm lvs)
    (hkeys : (kvs.map (fun kv => utf8 kv.1)).Nodup) :
    marshal (GoValue.map kvs) = marshal (GoValue.map lvs) := by
  cases h1 : marshalFields kvs with
  | none =>
    cases h2 : marshalFields lvs with
    | none => rw [marshal, marshal, h1, h2]
    | some gs =>
      obtain ⟨fs, hf, _⟩ := marshalFields_perm lvs kvs hperm.symm gs h2
      rw [h1] at hf
      cases hf
  | some fs =>
    obtain ⟨gs, hg, hp⟩ := marshalFields_perm kvs lvs hperm fs h1
    have hnd : (fs.map (fun f => utf8 f.1)).Nodup := by
      rw [marshalFields_keys kvs fs h1]
      exact hkeys
    rw [marshal, marshal, h1, hg]
    simp only [sortFields_eq_of_perm fs gs hp hnd]


/-! ## `encoding/json`: deeply equal values have the same encoding -/

theorem lookupKey_mem : ∀ (l : List (String × GoValue)) (k : String) (w : GoValue),
    lookupKey k l = some w → (k, w) ∈ l
  | [], _, _ => fun h => by simp [lookupKey] at h
  | (k', v) :: rest, k, w => fun h => by
    rw [lookupKey] at h
    by_cases hk : k' = k
    · rw [if_pos hk] at h
      cases h
      rw [hk]
      exact List.mem_cons_self _ _
    · rw [if_neg hk] at h
      exact List.mem_cons_of_mem _ (lookupKey_mem rest k w h)

theorem lookupKey_of_mem : ∀ (l : List (String × GoValue)) (k : String) (v : GoValue),
    (l.map (fun kv => kv.1)).Nodup → (k, v) ∈ l → lookupKey k l = some v
  | [], _, _ => fun _ h => by cases h
  | (k', v') :: rest, k, v => fun hnd h => by
    rw [List.map_cons, List.nodup_cons] at hnd
    rw [lookupKey]
    rcases List.mem_cons.1 h with h | h
    · cases h
      rw [if_pos rfl]
    · have hne : k' ≠ k := by
        intro hk
        subst hk
        exact hnd.1 (List.mem_map.2 ⟨(k', v), h, rfl⟩)
      rw [if_neg hne]
      exact lookupKey_of_mem rest k v hnd.2 h

theorem deepEqualEntries_lookup : ∀ (kvs lvs : List (String × GoValue)),
    deepEqualEntries kvs lvs = true →
    ∀ kv ∈ kvs, ∃ w, lookupKey kv.1 lvs = some w ∧ kv.2.deepEqual w = true
  | [], _ => fun _ kv h => by cases h
  | (k, v) :: rest, lvs => fun h kv hkv => by
    rw [deepEqualEntries, Bool.and_eq_true] at h
    rcases List.mem_cons.1 hkv with hkv | hkv
    · subst hkv
      cases hl : lookupKey k lvs with
      | none => simp [hl] at h
      | some w => exact ⟨w, rfl, by simpa [hl] using h.1⟩
    · exact deepEqualEntries_lookup rest lvs h.2 kv hkv

theorem realign_keys (kvs lvs : List (String × GoValue)) :
    (realign kvs lvs).map (fun kv => utf8 kv.1) = kvs.map (fun kv => utf8 kv.1) := by
  simp [realign, List.map_map, Function.comp_def]

/-- The entries of a map deeply equal to a map with distinct keys are, up to order,
the realigned entries. -/
theorem realign_perm (kvs lvs : List (String × GoValue))
    (hkeys : (kvs.map (fun kv => utf8 kv.1)).Nodup) (hlen : kvs.length = lvs.length)
    (heq : deepEqualEntries kvs lvs = true) : (realign kvs lvs).Perm lvs := by
  have hnd : (realign kvs lvs).Nodup := by
    have h := hkeys
    rw [← realign_keys kvs lvs] at h
    exact List.Nodup.of_map _ h
  have hsub : realign kvs lvs ⊆ lvs := by
    intro e he
    simp only [realign, List.mem_map] at he
    obtain ⟨kv, hkv, rfl⟩ := he
    obtain ⟨w, hw, _⟩ := deepEqualEntries_lookup kvs lvs heq kv hkv
    rw [hw]
    exact lookupKey_mem lvs kv.1 w hw
  refine (List.subperm_of_subset hnd hsub).perm_of_length_le ?_
  simp [realign, hlen]

mutual
theorem marshal_deepEqual : ∀ v w : GoValue,
    v.wellFormed = true → v.deepEqual w = true → marshal v = marshal w
  | .nil, w => fun _ h => by cases w <;> simp_all [GoValue.deepEqual]
  | .bool a, w => fun _ h => by cases w <;> simp_all [GoValue.deepEqual]
  | .int a, w => fun _ h => by cases w <;> simp_all [GoValue.deepEqual]
  | .str a, w => fun _ h => by cases w <;> simp_all [GoValue.deepEqual]
  | .nilMap, w => fun _ h => by cases w <;> simp_all [GoValue.deepEqual]
  | .chan, w => fun _ h => by cases w <;> simp_all [GoValue.deepEqual]
  | .slice xs, w => fun hwf h => by
    cases w with
    | slice ys =>
      rw [GoValue.wellFormed] at hwf
      rw [GoValue.deepEqual] at h
      rw [marshal, marshal, marshalElems_deepEqual xs ys hwf h]
    | _ => simp [GoValue.deepEqual] at h
  | .map kvs, w => fun hwf h => by
    cases w with
    | map lvs =>
      rw [GoValue.wellFormed, Bool.and_eq_true] at hwf
      rw [GoValue.deepEqual] at h
      simp only [Bool.and_eq_true, beq_iff_eq] at h
      have hkeys : (kvs.map (fun kv => utf8 kv.1)).Nodup := of_decide_eq_true hwf.1
      have h1 : marshal (GoValue.map kvs) = marshal (GoValue.map (realign kvs lvs)) := by
        rw [marshal, marshal, marshalFields_deepEqual kvs lvs hwf.2 h.2]
      have hkeys' : ((realign kvs lvs).map (fun kv => utf8 kv.1)).Nodup := by
        rw [realign_keys]
        exact hkeys
      rw [h1]
      exact marshal_map_perm _ _ (realign_perm kvs lvs hkeys h.1 h.2) hkeys'
    | _ => simp [GoValue.deepEqual] at h
theorem marshalElems_deepEqual : ∀ xs ys : List GoValue,
    wellFormedElems xs = true → deepEqualElems xs ys = true →
    marshalElems xs = marshalElems ys
  | [], ys => fun _ h => by
    cases ys with
    | nil => rfl
    | cons _ _ => simp [deepEqualElems] at h
  | x :: xs, ys => fun hwf h => by
    cases ys with
    | nil => simp [deepEqualElems] at h
    | cons y ys =>
      rw [wellFormedElems, Bool.and_eq_true] at hwf
      rw [deepEqualElems, Bool.and_eq_true] at h
      rw [marshalElems, marshalElems, marshal_deepEqual x y hwf.1 h.1,
        marshalElems_deepEqual xs ys hwf.2 h.2]
theorem marshalFields_deepEqual : ∀ kvs lvs : List (String × GoValue),
    wellFormedEntries kvs = true → deepEqualEntries kvs lvs = true →
    marshalFields kvs = marshalFields (realign kvs lvs)
  | [], _ => fun _ _ => rfl
  | (k, v) :: rest, lvs => fun hwf h => by
    rw [wellFormedEntries, Bool.and_eq_true] at hwf
    rw [deepEqualEntries, Bool.and_eq_true] at h
    cases hl : lookupKey k lvs with
    | none => simp [hl] at h
    | some w =>
      have hv : v.deepEqual w = true := by simpa [hl] using h.1
      have e : realign ((k, v) :: rest) lvs = (k, w) :: realign rest lvs := by
        simp [realign, hl]
      rw [e, marshalFields, marshalFields, marshal_deepEqual v w hwf.1 hv,
        marshalFields_deepEqual rest lvs hwf.2 h.2]
end


theorem stringKeys_nodup (kvs : List (String × GoValue))
    (h : (kvs.map (fun kv => utf8 kv.1)).Nodup) : (kvs.map (fun kv => kv.1)).Nodup := by
  have e : kvs.map (fun kv => utf8 kv.1) = (kvs.map (fun kv => kv.1)).map utf8 := by
    simp [List.map_map, Function.comp_def]
  rw [e] at h
  exact List.Nodup.of_map _ h

mutual
theorem deepEqual_refl : ∀ v : GoValue, v.wellFormed = true → v.deepEqual v = true
  | .nil => fun _ => by simp [GoValue.deepEqual]
  | .bool _ => fun _ => by simp [GoValue.deepEqual]
  | .int _ => fun _ => by simp [GoValue.deepEqual]
  | .str _ => fun _ => by simp [GoValue.deepEqual]
  | .nilMap => fun _ => by simp [GoValue.deepEqual]
  | .chan => fun _ => by simp [GoValue.deepEqual]
  | .slice xs => fun hwf => by
    rw [GoValue.wellFormed] at hwf
    rw [GoValue.deepEqual]
    exact deepEqualElems_refl xs hwf
  | .map kvs => fun hwf => by
    rw [GoValue.wellFormed, Bool.and_eq_true] at hwf
    rw [GoValue.deepEqual]
    simp only [beq_self_eq_true, Bool.true_and]
    exact deepEqualEntries_of_lookup kvs kvs hwf.2
      (fun k v h => lookupKey_of_mem kvs k v (stringKeys_nodup kvs (of_decide_eq_true hwf.1)) h)
theorem deepEqualElems_refl : ∀ xs : List GoValue,
    wellFormedElems xs = true → deepEqualElems xs xs = true
  | [] => fun _ => rfl
  | x :: xs => fun hwf => by
    rw [wellFormedElems, Bool.and_eq_true] at hwf
    rw [deepEqualElems, Bool.and_eq_true]
    exact ⟨deepEqual_refl x hwf.1, deepEqualElems_refl xs hwf.2⟩
theorem deepEqualEntries_of_lookup : ∀ kvs lvs : List (String × GoValue),
    wellFormedEntries kvs = true →
    (∀ k v, (k, v) ∈ kvs → lookupKey k lvs = some v) → deepEqualEntries kvs lvs = true
  | [], _ => fun _ _ => rfl
  | (k, v) :: rest, lvs => fun hwf h => by
    rw [wellFormedEntries, Bool.and_eq_true] at hwf
    rw [deepEqualEntries, Bool.and_eq_true, h k v (List.mem_cons_self _ _)]
    exact ⟨deepEqual_refl v hwf.1,
      deepEqualEntries_of_lookup rest lvs hwf.2
        (fun k' v' h' => h k' v' (List.mem_cons_of_mem _ h'))⟩
end

/-- A map is deeply equal to each listing of its entries in another order. -/
theorem deepEqual_of_perm (kvs lvs : List (String × GoValue))
    (hwf : (GoValue.map kvs).wellFormed = true) (hperm : kvs.Perm lvs) :
    (GoValue.map kvs).deepEqual (GoValue.map lvs) = true := by
  rw [GoValue.wellFormed, Bool.and_eq_true] at hwf
  have hnd : (lvs.map (fun kv => kv.1)).Nodup :=
    (hperm.map _).nodup_iff.1 (stringKeys_nodup kvs (of_decide_eq_true hwf.1))
  rw [GoValue.deepEqual, Bool.and_eq_true, beq_iff_eq]
  exact ⟨hperm.length_eq, deepEqualEntries_of_lookup kvs lvs hwf.2
    (fun k v h => lookupKey_of_mem lvs k v hnd (hperm.subset h))⟩


/-! ## `RecordDecision`: the payload and the request -/

/-- The payload map `RecordDecision` builds, on every path. -/
theorem RecordDecision_payload (rt : Runtime) (c : Client) (d : Decision) :
    (RecordDecision rt c d).payload =
      [("event_version", GoValue.str "2.0"),
       ("event_state", GoValue.str "completed"),
       ("decision_id", GoValue.str
          (if d.DecisionID = "" then generateUUIDv4 rt.randBytes else d.DecisionID)),
       ("system_name", GoValue.str d.System),
       ("risk_level", GoValue.str (if d.RiskLevel = "" then "standard" else d.RiskLevel)),
       ("model_name", GoValue.str (if d.ModelName = "" then "default" else d.ModelName)),
       ("input_hash", GoValue.str (hashJSON d.Input.toInterface)),
       ("output_hash", GoValue.str (hashJSON d.Output.toInterface)),
       ("input", d.Input.toInterface),
       ("output", d.Output.toInterface),
       ("metadata", d.Metadata.toInterface),
       ("start_timestamp", GoValue.str rt.now),
       ("end_timestamp", GoValue.str rt.now)] := by
  unfold RecordDecision
  dsimp only
  repeat' split
  all_goals rfl

theorem stringField_decision_id (rt : Runtime) (c : Client) (d : Decision) :
    stringField "decision_id" (RecordDecision rt c d).payload =
      some (if d.DecisionID = "" then generateUUIDv4 rt.randBytes else d.DecisionID) := by
  rw [RecordDecision_payload]
  simp [stringField, lookupKey]

theorem stringField_input_hash (rt : Runtime) (c : Client) (d : Decision) :
    stringField "input_hash" (RecordDecision rt c d).payload =
      some (hashJSON d.Input.toInterface) := by
  rw [RecordDecision_payload]
  simp [stringField, lookupKey]

theorem stringField_output_hash (rt : Runtime) (c : Client) (d : Decision) :
    stringField "output_hash" (RecordDecision rt c d).payload =
      some (hashJSON d.Output.toInterface) := by
  rw [RecordDecision_payload]
  simp [stringField, lookupKey]


theorem RecordDecision_marshal_none (rt : Runtime) (c : Client) (d : Decision)
    (h : marshal (GoValue.map (RecordDecision rt c d).payload) = none) :
    (RecordDecision rt c d).sent = [] ∧ (RecordDecision rt c d).err = some GoError.marshal := by
  rw [RecordDecision_payload] at h
  unfold RecordDecision
  dsimp only
  rw [h]
  exact ⟨rfl, rfl⟩

theorem RecordDecision_badURL (rt : Runtime) (c : Client) (d : Decision)
    (h : rt.parseURL (c.Endpoint ++ "/v1/decisions") = false) :
    (RecordDecision rt c d).sent = [] ∧ (RecordDecision rt c d).err ≠ none := by
  unfold RecordDecision
  dsimp only
  split
  · exact ⟨rfl, by simp⟩
  · rw [if_pos h]
    exact ⟨rfl, by simp⟩

theorem canonical_authorization :
    canonicalMIMEHeaderKey "Authorization" = "Authorization" := by decide

theorem canonical_api_key :
    canonicalMIMEHeaderKey "X-Regulayer-Api-Key" = "X-Regulayer-Api-Key" := by decide

theorem canonical_content_type :
    canonicalMIMEHeaderKey "Content-Type" = "Content-Type" := by decide

theorem canonical_request_id :
    canonicalMIMEHeaderKey "X-Request-ID" = "X-Request-Id" := by decide

theorem header_after_four_sets (auth key ctype rid : String) :
    Header.Set (Header.Set (Header.Set (Header.Set [] "Authorization" auth)
      "X-Regulayer-Api-Key" key) "Content-Type" ctype) "X-Request-ID" rid =
      [("X-Request-Id", [rid]), ("Content-Type", [ctype]),
       ("X-Regulayer-Api-Key", [key]), ("Authorization", [auth])] := by
  simp [Header.Set, canonical_authorization, canonical_api_key, canonical_content_type,
    canonical_request_id]

theorem RecordDecision_request (rt : Runtime) (c : Client) (d : Decision) (body : String)
    (hbody : marshal (GoValue.map (RecordDecision rt c d).payload) = some body)
    (hurl : rt.parseURL (c.Endpoint ++ "/v1/decisions") = true) :
    (RecordDecision rt c d).sent = [builtRequest c
      (if d.DecisionID = "" then generateUUIDv4 rt.randBytes else d.DecisionID) body] ∧
    (RecordDecision rt c d).err = errorOfExchange (rt.Do c.HTTPClient (builtRequest c
      (if d.DecisionID = "" then generateUUIDv4 rt.randBytes else d.DecisionID) body)) := by
  rw [RecordDecision_payload] at hbody
  unfold RecordDecision
  dsimp only
  rw [hbody]
  dsimp only
  rw [if_neg (by simp [hurl])]
  simp only [header_after_four_sets, builtRequest, errorOfExchange]
  generalize rt.Do c.HTTPClient _ = r
  cases r with
  | error e => exact ⟨rfl, rfl⟩
  | ok resp =>
    dsimp only
    split <;> exact ⟨rfl, rfl⟩

/-! ## `generateUUIDv4` -/

theorem uuid_version_byte : ∀ v, v < 256 →
    hexDigit (((v &&& 0x0f) ||| 0x40) >>> 4) = '4' ∧ (v &&& 0x0f) ||| 0x40 < 256 ∧
    ((v &&& 0x0f) ||| 0x40) / 16 = 4 ∧ ((v &&& 0x0f) ||| 0x40) % 16 = v % 16 := by
  decide

theorem uuid_variant_byte : ∀ v, v < 256 →
    "89ab".data.contains (hexDigit (((v &&& 0x3f) ||| 0x80) >>> 4)) = true ∧
    (v &&& 0x3f) ||| 0x80 < 256 ∧
    ((v &&& 0x3f) ||| 0x80) / 64 = 2 ∧ ((v &&& 0x3f) ||| 0x80) % 64 = v % 64 := by
  decide

theorem hexDigit_ne_hyphen (n : Nat) : (hexDigit n != '-') = true := by
  by_cases h : n < 16
  · revert n
    decide
  · have : hexDigit n = '0' := List.getD_eq_default _ _ (by simpa [hextable] using h)
    rw [this]
    decide

theorem hexDecode_byte (v : Nat) (h : v < 256) (rest : List Char) :
    hexDecode (hexDigit (v >>> 4) :: hexDigit (v &&& 0x0f) :: rest) =
      (hexDecode rest).map (fun bs => v :: bs) := by
  have hb := byte_nibbles v h
  rw [hexDecode, hexValue_hexDigit _ hb.1, hexValue_hexDigit _ hb.2.1]
  cases hexDecode rest with
  | none => rfl
  | some bs => simp only [hb.2.2, Option.map_some']

/-- The characters of the identifier made from sixteen bytes. -/
theorem generateUUIDv4_data (b0 b1 b2 b3 b4 b5 b6 b7 b8 b9 b10 b11 b12 b13 b14 b15 : Nat) :
    (generateUUIDv4 [b0, b1, b2, b3, b4, b5, b6, b7, b8, b9, b10, b11, b12, b13, b14, b15]).data =
      [hexDigit (b0 >>> 4), hexDigit (b0 &&& 0x0f), hexDigit (b1 >>> 4), hexDigit (b1 &&& 0x0f),
       hexDigit (b2 >>> 4), hexDigit (b2 &&& 0x0f), hexDigit (b3 >>> 4), hexDigit (b3 &&& 0x0f),
       '-',
       hexDigit (b4 >>> 4), hexDigit (b4 &&& 0x0f), hexDigit (b5 >>> 4), hexDigit (b5 &&& 0x0f),
       '-',
       hexDigit (((b6 &&& 0x0f) ||| 0x40) >>> 4), hexDigit (((b6 &&& 0x0f) ||| 0x40) &&& 0x0f),
       hexDigit (b7 >>> 4), hexDigit (b7 &&& 0x0f),
       '-',
       hexDigit (((b8 &&& 0x3f) ||| 0x80) >>> 4), hexDigit (((b8 &&& 0x3f) ||| 0x80) &&& 0x0f),
       hexDigit (b9 >>> 4), hexDigit (b9 &&& 0x0f),
       '-',
       hexDigit (b10 >>> 4), hexDigit (b10 &&& 0x0f), hexDigit (b11 >>> 4), hexDigit (b11 &&& 0x0f),
       hexDigit (b12 >>> 4), hexDigit (b12 &&& 0x0f), hexDigit (b13 >>> 4), hexDigit (b13 &&& 0x0f),
       hexDigit (b14 >>> 4), hexDigit (b14 &&& 0x0f), hexDigit (b15 >>> 4), hexDigit (b15 &&& 0x0f)] := by
  rfl


/-! ## The claims -/

/-- C1: the payload built by `RecordDecision` has `decision_id` equal to the caller's
`DecisionID` when that is non-empty and to the generated identifier otherwise,
`risk_level` equal to `RiskLevel` when non-empty and `"standard"` otherwise, and
`model_name` equal to `ModelName` when non-empty and `"default"` otherwise. -/
theorem payload_identifier_and_defaults (rt : Runtime) (c : Client) (d : Decision) :
    (d.DecisionID ≠ "" →
      stringField "decision_id" (RecordDecision rt c d).payload = some d.DecisionID) ∧
    (d.DecisionID = "" →
      stringField "decision_id" (RecordDecision rt c d).payload =
        some (generateUUIDv4 rt.randBytes)) ∧
    (d.RiskLevel ≠ "" →
      stringField "risk_level" (RecordDecision rt c d).payload = some d.RiskLevel) ∧
    (d.RiskLevel = "" →
      stringField "risk_level" (RecordDecision rt c d).payload = some "standard") ∧
    (d.ModelName ≠ "" →
      stringField "model_name" (RecordDecision rt c d).payload = some d.ModelName) ∧
    (d.ModelName = "" →
      stringField "model_name" (RecordDecision rt c d).payload = some "default") := by
  rw [RecordDecision_payload]
  refine ⟨?_, ?_, ?_, ?_, ?_, ?_⟩ <;> intro h <;> simp [stringField, lookupKey, h]

/-- Witness of C1: with every optional field empty the payload carries the generated
identifier and the two defaults. -/
theorem payload_identifier_and_defaults_witness :
    stringField "decision_id" (RecordDecision (sampleRuntime 200) sampleClient sampleDecision).payload
      = some "00112233-4455-4677-8899-aabbccddeeff" ∧
    stringField "risk_level" (RecordDecision (sampleRuntime 200) sampleClient sampleDecision).payload
      = some "standard" ∧
    stringField "model_name" (RecordDecision (sampleRuntime 200) sampleClient sampleDecision).payload
      = some "default" :=
  have h := payload_identifier_and_defaults (sampleRuntime 200) sampleClient sampleDecision
  ⟨(h.2.1 rfl).trans (by decide), h.2.2.2.1 rfl, h.2.2.2.2.2 rfl⟩

/-- C2: for a value that is not the nil interface, `hashJSON` returns the empty string
when JSON serialisation fails and otherwise the lowercase hexadecimal SHA-256 digest of
the serialised bytes, 64 characters each in `0-9a-f`; the empty map has a non-empty
hash, and the `input_hash` of the input `{"a":1}` is the hex SHA-256 of the bytes
`{"a":1}`. -/
theorem hashJSON_digest (v : GoValue) (hv : v ≠ GoValue.nil) :
    (marshal v = none → hashJSON v = "") ∧
    (∀ bytes, marshal v = some bytes →
      hashJSON v = hexEncode (sha256 (utf8 bytes)) ∧
      (hashJSON v).length = 64 ∧
      ∀ ch ∈ (hashJSON v).data, isLowerHex ch = true) ∧
    hashJSON (GoValue.map []) = hexEncode (sha256 (utf8 "\x7b\x7d")) ∧
    hashJSON (GoValue.map []) ≠ "" ∧
    (∀ (rt : Runtime) (c : Client) (d : Decision), d.Input = some [("a", GoValue.int 1)] →
      stringField "input_hash" (RecordDecision rt c d).payload =
        some (hexEncode (sha256 (utf8 "\x7b\"a\":1\x7d")))) := by
  have hgen : ∀ bytes, marshal v = some bytes → hashJSON v = hexEncode (sha256 (utf8 bytes)) := by
    intro bytes hb
    cases v <;> first | exact absurd rfl hv | simp only [hashJSON, hb]
  refine ⟨?_, ?_, by decide, by decide, ?_⟩
  · intro hm
    cases v <;> first | rfl | simp only [hashJSON, hm]
  · intro bytes hb
    rw [hgen bytes hb]
    refine ⟨rfl, ?_, hexEncode_isLowerHex _ (sha256_lt _)⟩
    rw [hexEncode_length, sha256_length]
  · intro rt c d hd
    rw [stringField_input_hash, hd]
    decide

/-- Witness of C2: the hash of the map `{"a":1}`. -/
theorem hashJSON_digest_witness :
    hashJSON (GoValue.map [("a", GoValue.int 1)]) =
      "015abd7f5cc57a2dd94b7590f04ad8084273905ee33ec5cebeae62276a97f862" :=
  (((hashJSON_digest (GoValue.map [("a", GoValue.int 1)]) (by simp)).2.1
    "\x7b\"a\":1\x7d" (by decide)).1).trans (by decide)


/-- C3: for a decision whose `Input` and `Output` are nil maps, the `input_hash` and
`output_hash` in the payload are not the empty string: each is the SHA-256 digest of
the four bytes `null`, because the nil map reaches `hashJSON` inside a non-nil
interface and the guard `data == nil` does not fire. -/
theorem absent_maps_are_hashed (rt : Runtime) (c : Client) :
    emptyDecision.Input = none ∧ emptyDecision.Output = none ∧
    stringField "input_hash" (RecordDecision rt c emptyDecision).payload =
      some "74234e98afe7498fb5daf1f36ac2d78acc339464f950703b8c019892f982b90b" ∧
    stringField "output_hash" (RecordDecision rt c emptyDecision).payload =
      some "74234e98afe7498fb5daf1f36ac2d78acc339464f950703b8c019892f982b90b" ∧
    hashJSON GoValue.nil = "" := by
  rw [stringField_input_hash, stringField_output_hash]
  exact ⟨rfl, rfl, by decide, by decide, rfl⟩

/-- C4: when the transport answers the request of `RecordDecision` with a response of
status code `s`, `RecordDecision` returns an error exactly when `s ≥ 400`; that error
has the message `"API error: status code s"`, and for `s < 400` no error is returned. -/
theorem status_code_decides_error (rt : Runtime) (c : Client) (d : Decision)
    (req : Request) (resp : Response)
    (hsent : (RecordDecision rt c d).sent = [req])
    (hresp : rt.Do c.HTTPClient req = Except.ok resp) :
    ((RecordDecision rt c d).err ≠ none ↔ resp.StatusCode ≥ 400) ∧
    (resp.StatusCode ≥ 400 → (RecordDecision rt c d).err =
      some (GoError.message ("API error: status code " ++ toString resp.StatusCode))) ∧
    (resp.StatusCode < 400 → (RecordDecision rt c d).err = none) := by
  cases hm : marshal (GoValue.map (RecordDecision rt c d).payload) with
  | none =>
    rw [(RecordDecision_marshal_none rt c d hm).1] at hsent
    cases hsent
  | some body =>
    cases hu : rt.parseURL (c.Endpoint ++ "/v1/decisions") with
    | false =>
      rw [(RecordDecision_badURL rt c d hu).1] at hsent
      cases hsent
    | true =>
      obtain ⟨hs, he⟩ := RecordDecision_request rt c d body hm hu
      rw [hs] at hsent
      simp only [List.cons.injEq, and_true] at hsent
      rw [hsent, hresp] at he
      rw [he, errorOfExchange]
      by_cases hge : resp.StatusCode ≥ 400
      · rw [if_pos hge]
        exact ⟨⟨fun _ => hge, fun _ => by simp⟩, fun _ => rfl, fun h => absurd hge (by omega)⟩
      · rw [if_neg hge]
        exact ⟨⟨fun h => absurd rfl h, fun h => absurd h hge⟩, fun h => absurd h hge,
          fun _ => rfl⟩

/-- Witness of C4: an endpoint answering 500 gives the error
`"API error: status code 500"`. -/
theorem status_code_decides_error_witness :
    (RecordDecision (sampleRuntime 500) sampleClient emptyDecision).err =
      some (GoError.message "API error: status code 500") :=
  (status_code_decides_error (sampleRuntime 500) sampleClient emptyDecision
    (builtRequest sampleClient "d-1"
      ((marshal (GoValue.map
        (RecordDecision (sampleRuntime 500) sampleClient emptyDecision).payload)).getD ""))
    { StatusCode := 500 } (by decide) rfl).2.1 (by decide)


/-- C5: for a client whose endpoint gives a URL `http.NewRequest` accepts and a
decision whose payload serialises, `RecordDecision` hands exactly one request to the
transport, whatever the transport answers: a POST to `Endpoint + "/v1/decisions"`
whose body is the serialised payload, with `Authorization` equal to
`"Bearer " + APIKey`, `X-Regulayer-Api-Key` equal to `APIKey`, `Content-Type` equal to
`"application/json"`, and `X-Request-ID` equal to the `decision_id` of the payload. -/
theorem exactly_one_request (rt : Runtime) (c : Client) (d : Decision) (body : String)
    (hurl : rt.parseURL (c.Endpoint ++ "/v1/decisions") = true)
    (hbody : marshal (GoValue.map (RecordDecision rt c d).payload) = some body) :
    ∃ req : Request, (RecordDecision rt c d).sent = [req] ∧
      req.Method = "POST" ∧
      req.URL = c.Endpoint ++ "/v1/decisions" ∧
      req.Body = body ∧
      req.Header.Get "Authorization" = "Bearer " ++ c.APIKey ∧
      req.Header.Get "X-Regulayer-Api-Key" = c.APIKey ∧
      req.Header.Get "Content-Type" = "application/json" ∧
      stringField "decision_id" (RecordDecision rt c d).payload =
        some (req.Header.Get "X-Request-ID") := by
  refine ⟨_, (RecordDecision_request rt c d body hbody hurl).1, rfl, rfl, rfl, ?_, ?_, ?_, ?_⟩
  · simp [builtRequest, Header.Get, canonical_authorization, List.lookup]
  · simp [builtRequest, Header.Get, canonical_api_key, List.lookup]
  · simp [builtRequest, Header.Get, canonical_content_type, List.lookup]
  · rw [stringField_decision_id]
    simp [builtRequest, Header.Get, canonical_request_id, List.lookup]

/-- Witness of C5: the sample decision with a transport that answers 500 leads to one
request, to the default endpoint. -/
theorem exactly_one_request_witness :
    ∃ req : Request,
      (RecordDecision (sampleRuntime 500) sampleClient emptyDecision).sent = [req] ∧
      req.Method = "POST" ∧
      req.URL = "https://api.regulayer.tech/v1/decisions" ∧
      req.Header.Get "Authorization" = "Bearer k" ∧
      req.Header.Get "X-Request-ID" = "d-1" := by
  obtain ⟨req, h1, h2, h3, _, h5, _, _, h8⟩ :=
    exactly_one_request (sampleRuntime 500) sampleClient emptyDecision
      ((marshal (GoValue.map
        (RecordDecision (sampleRuntime 500) sampleClient emptyDecision).payload)).getD "")
      rfl (by decide)
  rw [stringField_decision_id] at h8
  exact ⟨req, h1, h2, h3.trans (by decide), h5.trans (by decide),
    (Option.some.inj h8).symm.trans (by decide)⟩

/-- C6: when `Input`, `Output` or `Metadata` contains a value that cannot be
JSON-encoded, `RecordDecision` returns an error and hands no request to the transport,
while the hash of an unencodable `Input` or `Output` in the payload is the empty
string. -/
theorem unencodable_payload_is_not_sent (rt : Runtime) (c : Client) (d : Decision)
    (h : d.Input.toInterface.hasUnsupported = true ∨
         d.Output.toInterface.hasUnsupported = true ∨
         d.Metadata.toInterface.hasUnsupported = true) :
    (RecordDecision rt c d).err = some GoError.marshal ∧
    (RecordDecision rt c d).sent = [] ∧
    (d.Input.toInterface.hasUnsupported = true →
      stringField "input_hash" (RecordDecision rt c d).payload = some "") ∧
    (d.Output.toInterface.hasUnsupported = true →
      stringField "output_hash" (RecordDecision rt c d).payload = some "") := by
  have hhash : ∀ v : GoValue, v.hasUnsupported = true → hashJSON v = "" := by
    intro v hv
    have hm := (marshal_eq_none_iff v).2 hv
    cases v <;> first | rfl | simp only [hashJSON, hm]
  have hnone : marshal (GoValue.map (RecordDecision rt c d).payload) = none := by
    rw [RecordDecision_payload]
    rcases h with h | h | h
    · exact marshal_map_none_of_mem _ "input" _ (by simp) ((marshal_eq_none_iff _).2 h)
    · exact marshal_map_none_of_mem _ "output" _ (by simp) ((marshal_eq_none_iff _).2 h)
    · exact marshal_map_none_of_mem _ "metadata" _ (by simp) ((marshal_eq_none_iff _).2 h)
  obtain ⟨hs, he⟩ := RecordDecision_marshal_none rt c d hnone
  refine ⟨he, hs, ?_, ?_⟩
  · intro hi
    rw [stringField_input_hash, hhash _ hi]
  · intro ho
    rw [stringField_output_hash, hhash _ ho]

/-- Witness of C6: a decision whose input holds a channel. -/
theorem unencodable_payload_is_not_sent_witness :
    (RecordDecision (sampleRuntime 200) sampleClient channelDecision).err
      = some GoError.marshal ∧
    (RecordDecision (sampleRuntime 200) sampleClient channelDecision).sent = [] ∧
    stringField "input_hash"
      (RecordDecision (sampleRuntime 200) sampleClient channelDecision).payload = some "" :=
  have h := unencodable_payload_is_not_sent (sampleRuntime 200) sampleClient channelDecision
    (Or.inl rfl)
  ⟨h.1, h.2.1, h.2.2.1 rfl⟩

/-- C7 as stated fails: for the configuration with every field empty the error of
`NewClient` is not the error with message `"API key is required"`. -/
theorem api_key_message_differs :
    (NewClient { APIKey := "", Endpoint := "", Demo := false }).2
      ≠ some (GoError.message "API key is required") := by
  decide

/-- C7, amended: for every `Config` whose `APIKey` is the empty string, whatever its
`Endpoint` and `Demo`, `NewClient` produces no client and fails with the error whose
message is `"APIKey is required"`. -/
theorem empty_api_key_is_rejected (config : Config) (h : config.APIKey = "") :
    NewClient config = (none, some (GoError.message "APIKey is required")) := by
  rw [NewClient, if_pos h]

/-- Witness of the amended C7: a configuration with an endpoint and the demo flag set
but no key. -/
theorem empty_api_key_is_rejected_witness :
    NewClient { APIKey := "", Endpoint := "http://localhost:8080", Demo := true } =
      (none, some (GoError.message "APIKey is required")) :=
  empty_api_key_is_rejected { APIKey := "", Endpoint := "http://localhost:8080", Demo := true } rfl

/-- C8: for every `Config` with a non-empty `APIKey`, `NewClient` returns no error and a
client with that `APIKey`, with `Endpoint` equal to the configured one when non-empty and
to `"https://api.regulayer.tech"` when empty, and with a timeout of 10 seconds
(10000000000 nanoseconds); the result is the same for either value of `Demo`. -/
theorem new_client_succeeds (config : Config) (h : config.APIKey ≠ "") :
    ∃ client : Client, NewClient config = (some client, none) ∧
      client.APIKey = config.APIKey ∧
      (config.Endpoint ≠ "" → client.Endpoint = config.Endpoint) ∧
      (config.Endpoint = "" → client.Endpoint = "https://api.regulayer.tech") ∧
      client.HTTPClient.Timeout = 10000000000 ∧
      ∀ demo : Bool, NewClient { config with Demo := demo } = (some client, none) := by
  refine ⟨{ APIKey := config.APIKey,
             Endpoint := if config.Endpoint = "" then "https://api.regulayer.tech"
                         else config.Endpoint,
             HTTPClient := { Timeout := 10 * Second } },
    by rw [NewClient, if_neg h], rfl, ?_, ?_, ?_, ?_⟩
  · intro he
    simp [he]
  · intro he
    simp [he]
  · show (10 * Second : Int) = 10000000000
    decide
  · intro demo
    rw [NewClient, if_neg h]

/-- Witness of C8: a key with no endpoint gives a client for the default endpoint. -/
theorem new_client_succeeds_witness :
    ∃ client : Client,
      NewClient { APIKey := "k", Endpoint := "", Demo := true } = (some client, none) ∧
      client.APIKey = "k" ∧
      client.Endpoint = "https://api.regulayer.tech" ∧
      client.HTTPClient.Timeout = 10000000000 := by
  obtain ⟨client, h1, h2, _, h4, h5, _⟩ :=
    new_client_succeeds { APIKey := "k", Endpoint := "", Demo := true } (by decide)
  exact ⟨client, h1, h2, h4 rfl, h5⟩


/-- C9: for every sixteen bytes delivered by the random source, `generateUUIDv4`
returns a string of 36 characters matching
`[0-9a-f]{8}-[0-9a-f]{4}-4[0-9a-f]{3}-[89ab][0-9a-f]{3}-[0-9a-f]{12}`; its hexadecimal
digits, hyphens removed, spell sixteen bytes that equal the delivered ones everywhere
except that the high nibble of byte 6 is 4 and the two high bits of byte 8 are `10`,
the low nibble of byte 6 and the low six bits of byte 8 being unchanged. -/
theorem generateUUIDv4_layout (src : List Nat) (hlen : src.length = 16)
    (hbyte : ∀ v ∈ src, v < 256) :
    (generateUUIDv4 src).length = 36 ∧
    matchesPattern uuidV4Pattern (generateUUIDv4 src) = true ∧
    ∃ b : List Nat, uuidBytes (generateUUIDv4 src) = some b ∧ b.length = 16 ∧
      (∀ i, i < 16 → i ≠ 6 → i ≠ 8 → b.getD i 0 = src.getD i 0) ∧
      b.getD 6 0 / 16 = 4 ∧ b.getD 6 0 % 16 = src.getD 6 0 % 16 ∧
      b.getD 8 0 / 64 = 2 ∧ b.getD 8 0 % 64 = src.getD 8 0 % 64 := by
  rcases src with _ | ⟨b0, _ | ⟨b1, _ | ⟨b2, _ | ⟨b3, _ | ⟨b4, _ | ⟨b5, _ | ⟨b6, _ | ⟨b7,
    _ | ⟨b8, _ | ⟨b9, _ | ⟨b10, _ | ⟨b11, _ | ⟨b12, _ | ⟨b13, _ | ⟨b14, _ | ⟨b15,
    _ | ⟨b16, rest⟩⟩⟩⟩⟩⟩⟩⟩⟩⟩⟩⟩⟩⟩⟩⟩⟩ <;>
    simp only [List.length_cons, List.length_nil] at hlen <;> try omega
  simp only [List.mem_cons, List.mem_singleton, List.not_mem_nil, or_false, forall_eq_or_imp,
    forall_eq] at hbyte
  obtain ⟨h0, h1, h2, h3, h4, h5, h6, h7, h8, h9, h10, h11, h12, h13, h14, h15⟩ := hbyte
  have n0 := byte_nibbles b0 h0
  have n1 := byte_nibbles b1 h1
  have n2 := byte_nibbles b2 h2
  have n3 := byte_nibbles b3 h3
  have n4 := byte_nibbles b4 h4
  have n5 := byte_nibbles b5 h5
  have n7 := byte_nibbles b7 h7
  have n9 := byte_nibbles b9 h9
  have n10 := byte_nibbles b10 h10
  have n11 := byte_nibbles b11 h11
  have n12 := byte_nibbles b12 h12
  have n13 := byte_nibbles b13 h13
  have n14 := byte_nibbles b14 h14
  have n15 := byte_nibbles b15 h15
  have v6 := uuid_version_byte b6 h6
  have v8 := uuid_variant_byte b8 h8
  have n6 := byte_nibbles _ v6.2.1
  have n8 := byte_nibbles _ v8.2.1
  refine ⟨?_, ?_, [b0, b1, b2, b3, b4, b5, (b6 &&& 0x0f) ||| 0x40, b7,
    (b8 &&& 0x3f) ||| 0x80, b9, b10, b11, b12, b13, b14, b15], ?_, rfl, ?_,
    v6.2.2.1, v6.2.2.2, v8.2.2.1, v8.2.2.2⟩
  · show (generateUUIDv4 _).data.length = 36
    rw [generateUUIDv4_data]
    rfl
  · rw [matchesPattern, generateUUIDv4_data]
    simp only [uuidV4Pattern, List.replicate, List.cons_append, List.nil_append,
      List.zipWith_cons_cons, List.zipWith_nil_right, List.all_cons, List.all_nil,
      List.length_cons, List.length_nil, id, Bool.and_true, Bool.and_eq_true, beq_self_eq_true,
      and_true, true_and]
    simp only [v6.1, v8.1, hexDigit_isLowerHex _ n0.1, hexDigit_isLowerHex _ n0.2.1,
      hexDigit_isLowerHex _ n1.1, hexDigit_isLowerHex _ n1.2.1,
      hexDigit_isLowerHex _ n2.1, hexDigit_isLowerHex _ n2.2.1,
      hexDigit_isLowerHex _ n3.1, hexDigit_isLowerHex _ n3.2.1,
      hexDigit_isLowerHex _ n4.1, hexDigit_isLowerHex _ n4.2.1,
      hexDigit_isLowerHex _ n5.1, hexDigit_isLowerHex _ n5.2.1,
      hexDigit_isLowerHex _ n6.2.1,
      hexDigit_isLowerHex _ n7.1, hexDigit_isLowerHex _ n7.2.1,
      hexDigit_isLowerHex _ n8.2.1,
      hexDigit_isLowerHex _ n9.1, hexDigit_isLowerHex _ n9.2.1,
      hexDigit_isLowerHex _ n10.1, hexDigit_isLowerHex _ n10.2.1,
      hexDigit_isLowerHex _ n11.1, hexDigit_isLowerHex _ n11.2.1,
      hexDigit_isLowerHex _ n12.1, hexDigit_isLowerHex _ n12.2.1,
      hexDigit_isLowerHex _ n13.1, hexDigit_isLowerHex _ n13.2.1,
      hexDigit_isLowerHex _ n14.1, hexDigit_isLowerHex _ n14.2.1,
      hexDigit_isLowerHex _ n15.1, hexDigit_isLowerHex _ n15.2.1]
    decide
  · rw [uuidBytes, generateUUIDv4_data]
    simp only [List.filter_cons, hexDigit_ne_hyphen, if_true, List.filter_nil,
      show (('-' : Char) != '-') = false from by decide, Bool.false_eq_true, if_false]
    rw [hexDecode_byte _ h0, hexDecode_byte _ h1, hexDecode_byte _ h2, hexDecode_byte _ h3,
      hexDecode_byte _ h4, hexDecode_byte _ h5, hexDecode_byte _ v6.2.1, hexDecode_byte _ h7,
      hexDecode_byte _ v8.2.1, hexDecode_byte _ h9, hexDecode_byte _ h10,
      hexDecode_byte _ h11, hexDecode_byte _ h12, hexDecode_byte _ h13, hexDecode_byte _ h14,
      hexDecode_byte _ h15]
    rfl
  · intro i hi hi6 hi8
    interval_cases i <;> first | rfl | exact absurd rfl hi6 | exact absurd rfl hi8

/-- Witness of C9: the identifier made from the bytes `00 11 22 ... ff`. -/
theorem generateUUIDv4_layout_witness :
    generateUUIDv4 (sampleRuntime 200).randBytes = "00112233-4455-4677-8899-aabbccddeeff" ∧
    matchesPattern uuidV4Pattern (generateUUIDv4 (sampleRuntime 200).randBytes) = true :=
  ⟨by decide,
   (generateUUIDv4_layout (sampleRuntime 200).randBytes (by decide) (by decide)).2.1⟩


/-- C10: two serialisable maps that hold the same key-value pairs have the same
`hashJSON`, whatever the order in which the pairs are listed, in the maps themselves
and in every map nested in their values: for every well-formed map (distinct keys at
every depth) and every map deeply equal to it, in the sense of `reflect.DeepEqual`,
the JSON encoding and `hashJSON` agree, and so do the `input_hash` and `output_hash`
of decisions carrying the two maps; every reordering of the entries of the map is
deeply equal to it. -/
theorem hashJSON_entry_order (kvs lvs : List (String × GoValue))
    (hwf : (GoValue.map kvs).wellFormed = true)
    (heq : (GoValue.map kvs).deepEqual (GoValue.map lvs) = true) :
    marshal (GoValue.map kvs) = marshal (GoValue.map lvs) ∧
    hashJSON (GoValue.map kvs) = hashJSON (GoValue.map lvs) ∧
    (∀ (rt : Runtime) (c : Client) (d e : Decision),
      d.Input = some kvs → e.Input = some lvs →
      stringField "input_hash" (RecordDecision rt c d).payload =
        stringField "input_hash" (RecordDecision rt c e).payload) ∧
    (∀ (rt : Runtime) (c : Client) (d e : Decision),
      d.Output = some kvs → e.Output = some lvs →
      stringField "output_hash" (RecordDecision rt c d).payload =
        stringField "output_hash" (RecordDecision rt c e).payload) ∧
    (∀ mvs : List (String × GoValue), kvs.Perm mvs →
      (GoValue.map kvs).deepEqual (GoValue.map mvs) = true ∧
      hashJSON (GoValue.map kvs) = hashJSON (GoValue.map mvs)) := by
  have hm := marshal_deepEqual _ _ hwf heq
  have hh : hashJSON (GoValue.map kvs) = hashJSON (GoValue.map lvs) := by
    simp only [hashJSON, hm]
  refine ⟨hm, hh, ?_, ?_, ?_⟩
  · intro rt c d e hd he
    rw [stringField_input_hash, stringField_input_hash, hd, he]
    exact congrArg some hh
  · intro rt c d e hd he
    rw [stringField_output_hash, stringField_output_hash, hd, he]
    exact congrArg some hh
  · intro mvs hperm
    have hd := deepEqual_of_perm kvs mvs hwf hperm
    refine ⟨hd, ?_⟩
    simp only [hashJSON, marshal_deepEqual _ _ hwf hd]

/-- Witness of C10: the map `{"m":{"x":1,"y":2},"n":[true]}` listed as `n`, `m` with
`m` listed as `y`, `x`, and listed as `m`, `n` with `m` listed as `x`, `y`, gives the
same `input_hash`. -/
theorem hashJSON_entry_order_witness :
    marshal (GoValue.map nestedEntries) =
      some "\x7b\"m\":\x7b\"x\":1,\"y\":2\x7d,\"n\":[true]\x7d" ∧
    marshal (GoValue.map nestedEntriesSorted) = marshal (GoValue.map nestedEntries) ∧
    stringField "input_hash"
        (RecordDecision (sampleRuntime 200) sampleClient reorderedDecision).payload =
      stringField "input_hash"
        (RecordDecision (sampleRuntime 200) sampleClient orderedDecision).payload :=
  have h := hashJSON_entry_order nestedEntries nestedEntriesSorted (by decide) (by decide)
  ⟨by decide, h.1.symm,
   h.2.2.1 (sampleRuntime 200) sampleClient reorderedDecision orderedDecision rfl rfl⟩

end Regulayer
